import Mathlib

/-!
Shallow embedding of the scan-line polygon fill program of
src/Project1_src/scanConversion.js: the geometry primitives, the Polygon
fill pipeline, the Canvas scene model and the drag interaction handler.

Coordinates are modelled as rationals.  The JavaScript NaN sentinel
returned by getIntersection is modelled as Option.none, and the thrown
"out of bounds" exceptions are modelled with Except.  The 2D rendering
context is modelled as a pixel function together with source-over
compositing; clearRect over the whole canvas becomes the constant
background surface.
-/

namespace ScanConv

/-- radius of points when drawing (POINT_RADIUS in the source). -/
def POINT_RADIUS : ℚ := 10

/-- alpha value of polygon colors when drawing (ALPHA in the source). -/
def ALPHA : ℚ := 1/2

/-- Point class: properties x, y, z. -/
structure Point where
  x : ℚ
  y : ℚ
  z : ℚ
deriving DecidableEq, Repr, Inhabited

/-- Polygon class: an array of Points plus a color array [r, g, b, a]. -/
structure Polygon where
  points : List Point
  color : List ℚ
deriving DecidableEq, Repr, Inhabited

/-- Static method Polygon.getIntersection: x-coordinate of the
intersection of the edge [p1, p2) with the horizontal scan line at
height y; the NaN result of the source is modelled as none.  Source
guard: if (p1.y == p2.y || y < p1.y || y >= p2.y) return NaN. -/
def Polygon.getIntersection (p1 p2 : Point) (y : ℚ) : Option ℚ :=
  if p1.y = p2.y ∨ y < p1.y ∨ p2.y ≤ y then none
  else some (p1.x + (p2.x - p1.x) * (y - p1.y) / (p2.y - p1.y))

/-- The consecutive vertex pair (points[i], points[(i+1) % n]) read by
iteration i of the edge construction loop of Polygon.fill. -/
def Polygon.pairAt (poly : Polygon) (i : ℕ) : Point × Point :=
  (poly.points.getD i default,
   poly.points.getD ((i + 1) % poly.points.length) default)

def Polygon.vertexPairs (poly : Polygon) : List (Point × Point) :=
  (List.range poly.points.length).map poly.pairAt

/-- One step of edge construction: skip a horizontal pair (continue in
the source), otherwise sort the two points by ascending y, as
[p1, p2].sort((p1, p2) => p1.y - p2.y) does. -/
def edgeOf (pr : Point × Point) : Option (Point × Point) :=
  if pr.1.y = pr.2.y then none
  else if pr.2.y < pr.1.y then some (pr.2, pr.1) else some pr

/-- The edge array built at the top of Polygon.fill. -/
def Polygon.edges (poly : Polygon) : List (Point × Point) :=
  poly.vertexPairs.filterMap edgeOf

/-- Math.min over a spread array, as a fold. -/
def listMin (a : ℚ) (l : List ℚ) : ℚ := l.foldl min a

/-- Math.max over a spread array, as a fold. -/
def listMax (a : ℚ) (l : List ℚ) : ℚ := l.foldl max a

/-- minY = Math.min(...points.map(p => p.y)); for an empty vertex list
the JavaScript value is Infinity and the scan loop runs zero times, which
the (never used) default 0 reproduces. -/
def Polygon.minY (poly : Polygon) : ℚ :=
  match poly.points.map Point.y with
  | [] => 0
  | a :: as => listMin a as

/-- maxY = Math.max(...points.map(p => p.y)). -/
def Polygon.maxY (poly : Polygon) : ℚ :=
  match poly.points.map Point.y with
  | [] => 0
  | a :: as => listMax a as

/-- The scan-line heights visited by the loop
for (let y = minY; y < maxY; y++): minY, minY + 1, ... while below
maxY. -/
def Polygon.scanLines (poly : Polygon) : List ℚ :=
  (List.range (⌈poly.maxY - poly.minY⌉).toNat).map
    (fun k : ℕ => poly.minY + (k : ℚ))

/-- The intersection x-coordinates of one scan line: map getIntersection
over the edges and filter out the NaN results. -/
def Polygon.scanlineIntersections (poly : Polygon) (y : ℚ) : List ℚ :=
  poly.edges.filterMap (fun e => Polygon.getIntersection e.1 e.2 y)

/-- The intersections of a scan line sorted ascending, as
intersection_x_coordinates.sort((a, b) => a - b). -/
def Polygon.sortedIntersections (poly : Polygon) (y : ℚ) : List ℚ :=
  (poly.scanlineIntersections y).insertionSort (· ≤ ·)

/-- The span drawing loop: for (i = 0; i < xs.length; i += 2) stroke from
xs[i] to xs[i+1].  With an odd count the final iteration passes the
undefined xs[xs.length] to lineTo; the 2D canvas line primitive ignores a
non-finite coordinate, and stroking a subpath holding only a moveTo
paints nothing, so the trailing unmatched intersection draws nothing and
is modelled as dropped. -/
def chunkPairs : List ℚ → List (ℚ × ℚ)
  | a :: b :: rest => (a, b) :: chunkPairs rest
  | _ => []

/-- The spans stroked at one scan line by Polygon.fill. -/
def Polygon.scanlineSpans (poly : Polygon) (y : ℚ) : List (ℚ × ℚ) :=
  chunkPairs (poly.sortedIntersections y)

/-! ### The drawing surface -/

/-- A pixel value: premultiplied r, g, b, a. -/
abbrev Pixel := ℚ × ℚ × ℚ × ℚ

/-- The raster surface of the canvas as a pixel function. -/
abbrev Surface := ℚ × ℚ → Pixel

def background : Pixel := (0, 0, 0, 0)

def blackPixel : Pixel := (0, 0, 0, 1)

/-- Source-over compositing performed by the 2D context. -/
def srcOver (s d : Pixel) : Pixel :=
  (s.1 + (1 - s.2.2.2) * d.1,
   s.2.1 + (1 - s.2.2.2) * d.2.1,
   s.2.2.1 + (1 - s.2.2.2) * d.2.2.1,
   s.2.2.2 + (1 - s.2.2.2) * d.2.2.2)

/-- rgba(r, g, b, a) stroke style from the stored color array. -/
def colorToPixel (c : List ℚ) : Pixel :=
  (c.getD 0 0, c.getD 1 0, c.getD 2 0, c.getD 3 0)

/-- Point.prototype.draw: stroke a circle of the given radius with black
outline around the point. -/
def Point.draw (p : Point) (radius : ℚ) (s : Surface) : Surface :=
  fun q =>
    if (q.1 - p.x)^2 + (q.2 - p.y)^2 = radius^2
    then srcOver blackPixel (s q) else s q

/-- One beginPath / moveTo / lineTo / stroke of a horizontal span. -/
def strokeSpan (c : Pixel) (x1 x2 yl : ℚ) (s : Surface) : Surface :=
  fun q =>
    if q.2 = yl ∧ min x1 x2 ≤ q.1 ∧ q.1 ≤ max x1 x2
    then srcOver c (s q) else s q

/-- The inner span loop of Polygon.fill applied to the surface. -/
def Polygon.fillRow (poly : Polygon) (yl : ℚ) (s : Surface) : Surface :=
  (poly.scanlineSpans yl).foldl
    (fun acc sp => strokeSpan (colorToPixel poly.color) sp.1 sp.2 yl acc) s

/-- Polygon.prototype.fill onto a surface: stroke every span of every
scan line. -/
def Polygon.fill (poly : Polygon) (s : Surface) : Surface :=
  poly.scanLines.foldl (fun acc yl => poly.fillRow yl acc) s

/-! ### The Canvas scene model -/

/-- Canvas class: surface bounds plus the scene lists of points and
polygons. -/
structure Canvas where
  width : ℚ
  height : ℚ
  points : List Point
  polygons : List Polygon

/-- Canvas.prototype.isOutOfBounds. -/
def Canvas.isOutOfBounds (c : Canvas) (p : Point) : Bool :=
  decide (p.x < 0) || decide (p.x > c.width) ||
  decide (p.y < 0) || decide (p.y > c.height)

/-- Canvas.prototype.addPoint: throw on an out-of-bounds point,
otherwise push it. -/
def Canvas.addPoint (c : Canvas) (p : Point) : Except String Canvas :=
  if c.isOutOfBounds p then Except.error "Point out of bounds"
  else Except.ok { c with points := c.points ++ [p] }

/-- Canvas.prototype.addPolygon: throw when some referenced point is out
of bounds, otherwise push the polygon. -/
def Canvas.addPolygon (c : Canvas) (poly : Polygon) : Except String Canvas :=
  if poly.points.any (fun p => c.isOutOfBounds p)
  then Except.error "Polygon out of bounds"
  else Except.ok { c with polygons := c.polygons ++ [poly] }

/-- The scene state the caller observes after calling addPolygon whether
or not it threw: the exception is raised before the push, so on failure
the scene is unchanged. -/
def Canvas.addPolygonState (c : Canvas) (poly : Polygon) : Canvas :=
  match c.addPolygon poly with
  | Except.ok c2 => c2
  | Except.error _ => c

/-- ctx.clearRect over the whole translated canvas: every pixel becomes
the transparent background, whatever was on the surface before. -/
def clearAll (_s : Surface) : Surface := fun _ => background

/-- Canvas.prototype.clear_and_draw: clear the surface, draw every point
in insertion order, then fill every polygon in insertion order. -/
def Canvas.clear_and_draw (c : Canvas) (s : Surface) : Surface :=
  c.polygons.foldl (fun acc poly => poly.fill acc)
    (c.points.foldl (fun acc p => p.draw POINT_RADIUS acc) (clearAll s))

/-! ### The drag interaction handler -/

/-- The mutable drag state of addDragHandler: drag_flag, the grabbed
point (modelled as its index in the scene list) and drag_offset. -/
structure DragState where
  flag : Bool
  idx : ℕ
  offset : ℚ × ℚ

/-- drag_point.x = e.offsetX - drag_offset[0];
drag_point.y = e.offsetY - drag_offset[1]: the unclamped coordinate
update applied to the grabbed point. -/
def dragMove (p : Point) (e off : ℚ × ℚ) : Point :=
  { p with x := e.1 - off.1, y := e.2 - off.2 }

/-- The mousemove handler of addDragHandler: while dragging, set the
grabbed point to (pointer − offset) — no bounds check, no clamping —
then redraw the canvas. -/
def handleMouseMove (c : Canvas) (st : DragState) (e : ℚ × ℚ) (s : Surface) :
    Canvas × Surface :=
  if st.flag then
    match c.points.get? st.idx with
    | some p =>
        let c2 : Canvas := { c with points := c.points.set st.idx (dragMove p e st.offset) }
        (c2, c2.clear_and_draw s)
    | none => (c, s)
  else (c, s)

/-! ### Generic list lemmas used by the fill proofs -/

/-- The pairing loop on an odd-length list: one pair per two elements and
the unmatched trailing element contributes nothing. -/
theorem chunkPairs_odd (k : ℕ) : ∀ xs : List ℚ, xs.length = 2 * k + 1 →
    (chunkPairs xs).length = k ∧ chunkPairs xs = chunkPairs xs.dropLast ∧
    ∀ j, j < k → ∃ a b, xs.get? (2*j) = some a ∧ xs.get? (2*j+1) = some b ∧
      (chunkPairs xs).get? j = some (a, b) := by
  induction k with
  | zero =>
      intro xs h
      norm_num at h
      obtain ⟨a, rfl⟩ := List.length_eq_one.mp h
      exact ⟨rfl, rfl, fun j hj => absurd hj (Nat.not_lt_zero j)⟩
  | succ k ih =>
      intro xs h
      match xs with
      | [] => simp at h
      | [a] => simp only [List.length_singleton] at h; omega
      | a :: b :: rest =>
        have hr : rest.length = 2 * k + 1 := by
          simp only [List.length_cons] at h; omega
        obtain ⟨hlen, hdrop, hget⟩ := ih rest hr
        match rest, hr with
        | r :: t, hr =>
          refine ⟨by simp [chunkPairs, ← hlen], ?_, ?_⟩
          · show (a, b) :: chunkPairs (r :: t) =
              chunkPairs ((a :: b :: r :: t).dropLast)
            rw [List.dropLast_cons₂, List.dropLast_cons₂]
            show _ = (a, b) :: chunkPairs ((r :: t).dropLast)
            rw [← hdrop]
          · intro j hj
            cases j with
            | zero => exact ⟨a, b, rfl, rfl, rfl⟩
            | succ j' =>
                obtain ⟨u, v, h1, h2, h3⟩ := hget j' (by omega)
                refine ⟨u, v, ?_, ?_, ?_⟩
                · show (a :: b :: r :: t).get? (2 * (j' + 1)) = some u
                  have : 2 * (j' + 1) = 2 * j' + 1 + 1 := by ring
                  rw [this, List.get?_cons_succ, List.get?_cons_succ]
                  exact h1
                · show (a :: b :: r :: t).get? (2 * (j' + 1) + 1) = some v
                  have : 2 * (j' + 1) + 1 = (2 * j' + 1) + 1 + 1 := by ring
                  rw [this, List.get?_cons_succ, List.get?_cons_succ]
                  exact h2
                · show ((a, b) :: chunkPairs (r :: t)).get? (j' + 1) = some (u, v)
                  rw [List.get?_cons_succ]
                  exact h3

/-! ### C1: the half-open edge interval of getIntersection -/

/-- C1.  For an edge ordered so that p1.y < p2.y, getIntersection returns
the linear interpolation x exactly when p1.y ≤ y < p2.y, and none (NaN in
the source) when y is outside that half-open interval; a horizontal edge
always yields none. -/
theorem getIntersection_spec (p1 p2 : Point) (y : ℚ) :
    (p1.y < p2.y →
      ((p1.y ≤ y ∧ y < p2.y →
         Polygon.getIntersection p1 p2 y =
           some (p1.x + (p2.x - p1.x) * (y - p1.y) / (p2.y - p1.y))) ∧
       (¬(p1.y ≤ y ∧ y < p2.y) → Polygon.getIntersection p1 p2 y = none))) ∧
    (p1.y = p2.y → Polygon.getIntersection p1 p2 y = none) := by
  refine ⟨fun hlt => ⟨fun h => ?_, fun h => ?_⟩, fun h => ?_⟩
  · rw [Polygon.getIntersection, if_neg]
    push_neg
    exact ⟨ne_of_lt hlt, h.1, h.2⟩
  · rw [Polygon.getIntersection, if_pos]
    rcases not_and_or.mp h with h | h
    · exact Or.inr (Or.inl (not_le.mp h))
    · exact Or.inr (Or.inr (not_lt.mp h))
  · rw [Polygon.getIntersection, if_pos (Or.inl h)]

theorem getIntersection_spec_witness :
    Polygon.getIntersection ⟨0, 0, 0⟩ ⟨10, 10, 0⟩ 5 = some 5 ∧
    Polygon.getIntersection ⟨0, 0, 0⟩ ⟨10, 10, 0⟩ 10 = none ∧
    Polygon.getIntersection ⟨0, 3, 0⟩ ⟨10, 3, 0⟩ 3 = none := by
  have h1 := ((getIntersection_spec ⟨0, 0, 0⟩ ⟨10, 10, 0⟩ 5).1
    (by norm_num)).1 (by norm_num)
  have h2 := ((getIntersection_spec ⟨0, 0, 0⟩ ⟨10, 10, 0⟩ 10).1
    (by norm_num)).2 (by norm_num)
  have h3 := (getIntersection_spec ⟨0, 3, 0⟩ ⟨10, 3, 0⟩ 3).2 (by norm_num)
  refine ⟨?_, h2, h3⟩
  rw [h1]; norm_num

/-! ### C3: even-odd pairing with a silently dropped odd leftover -/

/-- C3.  The spans stroked at a scan line are the consecutive pairs
(indices 0-1, 2-3, ...) of the sorted intersection list, and on a list of
odd length 2k+1 the pairing loop yields exactly k spans, the unmatched
trailing intersection drawing nothing (same spans as with it removed);
the loop is total, so no error is raised. -/
theorem fill_pairs_and_drops (poly : Polygon) (y : ℚ) :
    poly.scanlineSpans y = chunkPairs (poly.sortedIntersections y) ∧
    (∀ k : ℕ, (poly.sortedIntersections y).length = 2 * k + 1 →
      (poly.scanlineSpans y).length = k ∧
      poly.scanlineSpans y = chunkPairs ((poly.sortedIntersections y).dropLast)) ∧
    (∀ xs : List ℚ, ∀ k : ℕ, xs.length = 2 * k + 1 →
      (chunkPairs xs).length = k ∧ chunkPairs xs = chunkPairs xs.dropLast ∧
      ∀ j, j < k → ∃ a b, xs.get? (2*j) = some a ∧ xs.get? (2*j+1) = some b ∧
        (chunkPairs xs).get? j = some (a, b)) := by
  refine ⟨rfl, fun k h => ?_, fun xs k h => chunkPairs_odd k xs h⟩
  obtain ⟨h1, h2, _⟩ := chunkPairs_odd k _ h
  exact ⟨h1, h2⟩

theorem fill_pairs_and_drops_witness :
    (chunkPairs [(0:ℚ), 1, 2]).length = 1 ∧
    chunkPairs [(0:ℚ), 1, 2] = chunkPairs ([(0:ℚ), 1, 2].dropLast) := by
  have h := (fill_pairs_and_drops ⟨[], []⟩ 0).2.2 [(0:ℚ), 1, 2] 1 (by simp)
  exact ⟨h.1, h.2.1⟩

/-! ### C4: addPoint bounds checking -/

/-- C4.  addPoint appends the point exactly when it lies in the closed
rectangle [0, width] × [0, height] (so boundary points succeed), and
otherwise throws the out-of-bounds error, in which case nothing is
appended. -/
theorem addPoint_spec (c : Canvas) (p : Point) :
    (c.addPoint p = Except.ok { c with points := c.points ++ [p] } ↔
      0 ≤ p.x ∧ p.x ≤ c.width ∧ 0 ≤ p.y ∧ p.y ≤ c.height) ∧
    (c.addPoint p = Except.error "Point out of bounds" ↔
      ¬(0 ≤ p.x ∧ p.x ≤ c.width ∧ 0 ≤ p.y ∧ p.y ≤ c.height)) := by
  have hb : c.isOutOfBounds p = true ↔
      ¬(0 ≤ p.x ∧ p.x ≤ c.width ∧ 0 ≤ p.y ∧ p.y ≤ c.height) := by
    rw [Canvas.isOutOfBounds]
    simp only [Bool.or_eq_true, decide_eq_true_eq]
    constructor
    · rintro (((h | h) | h) | h) ⟨h1, h2, h3, h4⟩ <;> linarith
    · intro h
      by_contra h2
      push_neg at h2
      rcases h2 with ⟨⟨⟨a1, a2⟩, a3⟩, a4⟩
      exact h ⟨a1, a2, a3, a4⟩
  cases hob : c.isOutOfBounds p with
  | true =>
      rw [Canvas.addPoint, if_pos hob]
      simp [hb.mp hob]
  | false =>
      have hbnd := not_not.mp (fun hn => by rw [hb.mpr hn] at hob; cases hob)
      rw [Canvas.addPoint, if_neg (by rw [hob]; exact Bool.false_ne_true)]
      simp [hbnd]

theorem addPoint_spec_witness :
    ((⟨100, 50, [], []⟩ : Canvas).addPoint ⟨100, 50, 0⟩ =
      Except.ok ⟨100, 50, [⟨100, 50, 0⟩], []⟩) ∧
    ((⟨100, 50, [], []⟩ : Canvas).addPoint ⟨101, 0, 0⟩ =
      Except.error "Point out of bounds") := by
  constructor
  · exact (addPoint_spec ⟨100, 50, [], []⟩ ⟨100, 50, 0⟩).1.mpr (by norm_num)
  · exact (addPoint_spec ⟨100, 50, [], []⟩ ⟨101, 0, 0⟩).2.mpr (by norm_num)

/-! ### C5: addPolygon bounds checking -/

/-- C5.  addPolygon throws out-of-bounds exactly when some referenced
point, at its coordinates at insertion time, lies outside the surface
rectangle, leaving the scene unchanged; otherwise it appends the polygon
to the polygon list. -/
theorem addPolygon_spec (c : Canvas) (poly : Polygon) :
    (c.addPolygon poly = Except.error "Polygon out of bounds" ↔
      ∃ p ∈ poly.points,
        ¬(0 ≤ p.x ∧ p.x ≤ c.width ∧ 0 ≤ p.y ∧ p.y ≤ c.height)) ∧
    (c.addPolygon poly = Except.ok { c with polygons := c.polygons ++ [poly] } ↔
      ∀ p ∈ poly.points, 0 ≤ p.x ∧ p.x ≤ c.width ∧ 0 ≤ p.y ∧ p.y ≤ c.height) ∧
    ((∃ p ∈ poly.points,
        ¬(0 ≤ p.x ∧ p.x ≤ c.width ∧ 0 ≤ p.y ∧ p.y ≤ c.height)) →
      c.addPolygonState poly = c) := by
  have hb : ∀ p : Point, c.isOutOfBounds p = true ↔
      ¬(0 ≤ p.x ∧ p.x ≤ c.width ∧ 0 ≤ p.y ∧ p.y ≤ c.height) := by
    intro p
    rw [Canvas.isOutOfBounds]
    simp only [Bool.or_eq_true, decide_eq_true_eq]
    constructor
    · rintro (((h | h) | h) | h) ⟨h1, h2, h3, h4⟩ <;> linarith
    · intro h
      by_contra h2
      push_neg at h2
      rcases h2 with ⟨⟨⟨a1, a2⟩, a3⟩, a4⟩
      exact h ⟨a1, a2, a3, a4⟩
  have hany : (poly.points.any (fun p => c.isOutOfBounds p) = true) ↔
      ∃ p ∈ poly.points,
        ¬(0 ≤ p.x ∧ p.x ≤ c.width ∧ 0 ≤ p.y ∧ p.y ≤ c.height) := by
    rw [List.any_eq_true]
    constructor
    · rintro ⟨p, hp, h⟩; exact ⟨p, hp, (hb p).mp h⟩
    · rintro ⟨p, hp, h⟩; exact ⟨p, hp, (hb p).mpr h⟩
  cases hany2 : poly.points.any (fun p => c.isOutOfBounds p) with
  | true =>
      have hex := hany.mp hany2
      rw [Canvas.addPolygon, if_pos hany2]
      refine ⟨iff_of_true rfl hex, ?_, ?_⟩
      · constructor
        · intro h; simp at h
        · intro hall
          obtain ⟨p, hp, hnb⟩ := hex
          exact absurd (hall p hp) hnb
      · intro _
        rw [Canvas.addPolygonState, Canvas.addPolygon, if_pos hany2]
  | false =>
      have hnex : ¬∃ p ∈ poly.points,
          ¬(0 ≤ p.x ∧ p.x ≤ c.width ∧ 0 ≤ p.y ∧ p.y ≤ c.height) := by
        intro hex; rw [hany.mpr hex] at hany2; cases hany2
      have hall : ∀ p ∈ poly.points,
          0 ≤ p.x ∧ p.x ≤ c.width ∧ 0 ≤ p.y ∧ p.y ≤ c.height := by
        intro p hp
        by_contra hn
        exact hnex ⟨p, hp, hn⟩
      rw [Canvas.addPolygon, if_neg (by rw [hany2]; exact Bool.false_ne_true)]
      exact ⟨iff_of_false (by simp) hnex, iff_of_true rfl hall,
        fun hex => absurd hex hnex⟩

theorem addPolygon_spec_witness :
    ((⟨100, 50, [], []⟩ : Canvas).addPolygon ⟨[⟨200, 0, 0⟩], [0,0,0,1]⟩ =
      Except.error "Polygon out of bounds") ∧
    ((⟨100, 50, [], []⟩ : Canvas).addPolygonState ⟨[⟨200, 0, 0⟩], [0,0,0,1]⟩ =
      ⟨100, 50, [], []⟩) := by
  have hex : ∃ p ∈ ([⟨200, 0, 0⟩] : List Point),
      ¬(0 ≤ p.x ∧ p.x ≤ (100:ℚ) ∧ 0 ≤ p.y ∧ p.y ≤ (50:ℚ)) := by
    refine ⟨⟨200, 0, 0⟩, by simp, by norm_num⟩
  constructor
  · exact (addPolygon_spec ⟨100, 50, [], []⟩ ⟨[⟨200, 0, 0⟩], [0,0,0,1]⟩).1.mpr hex
  · exact (addPolygon_spec ⟨100, 50, [], []⟩ ⟨[⟨200, 0, 0⟩], [0,0,0,1]⟩).2.2 hex

/-! ### C10: no vertex-count validation in addPolygon -/

/-- C10.  addPolygon succeeds and appends whenever every referenced point
is in bounds; no vertex-count condition appears, so polygons with fewer
than 3 vertices (even an empty vertex list) are accepted. -/
theorem addPolygon_no_vertex_count_check (c : Canvas) (poly : Polygon)
    (h : ∀ p ∈ poly.points, 0 ≤ p.x ∧ p.x ≤ c.width ∧ 0 ≤ p.y ∧ p.y ≤ c.height) :
    c.addPolygon poly = Except.ok { c with polygons := c.polygons ++ [poly] } := by
  have hany : poly.points.any (fun p => c.isOutOfBounds p) = false := by
    rw [List.any_eq_false]
    intro p hp
    obtain ⟨h1, h2, h3, h4⟩ := h p hp
    rw [Canvas.isOutOfBounds]
    simp only [Bool.or_eq_true, decide_eq_true_eq]
    push_neg
    exact ⟨⟨⟨h1, h2⟩, h3⟩, h4⟩
  rw [Canvas.addPolygon, if_neg (by rw [hany]; exact Bool.false_ne_true)]

theorem addPolygon_no_vertex_count_check_witness :
    ((⟨100, 50, [], []⟩ : Canvas).addPolygon ⟨[], [255, 0, 0, 1]⟩ =
      Except.ok ⟨100, 50, [], [⟨[], [255, 0, 0, 1]⟩]⟩) ∧
    (Polygon.mk [] [255, 0, 0, 1]).points.length < 3 := by
  refine ⟨?_, by norm_num⟩
  exact addPolygon_no_vertex_count_check ⟨100, 50, [], []⟩ ⟨[], [255, 0, 0, 1]⟩
    (by intro p hp; cases hp)

/-! ### C8: redraw clears first, so it is idempotent -/

/-- C8.  clear_and_draw starts from the fully cleared surface, so its
result does not depend on what was on the surface before: redrawing an
unchanged scene is idempotent and reproduces the same pixels. -/
theorem clear_and_draw_idempotent (c : Canvas) (s t : Surface) :
    c.clear_and_draw (c.clear_and_draw s) = c.clear_and_draw s ∧
    c.clear_and_draw s = c.clear_and_draw t :=
  ⟨rfl, rfl⟩

/-! ### C9: dragging mutates without bounds re-validation -/

/-- C9.  The mousemove drag handler stores (pointer − offset) into the
grabbed point, unclamped, for every pointer position (no bounds
re-validation happens and no out-of-bounds error can be raised), and then
redraws the scene. -/
theorem mouseMove_drag_spec (c : Canvas) (st : DragState) (e : ℚ × ℚ)
    (s : Surface) (p : Point) (hflag : st.flag = true)
    (hidx : c.points.get? st.idx = some p) :
    dragMove p e st.offset =
      { p with x := e.1 - st.offset.1, y := e.2 - st.offset.2 } ∧
    (handleMouseMove c st e s).1 =
      { c with points := c.points.set st.idx (dragMove p e st.offset) } ∧
    (handleMouseMove c st e s).2 =
      Canvas.clear_and_draw
        { c with points := c.points.set st.idx (dragMove p e st.offset) } s := by
  rw [handleMouseMove, if_pos (by rw [hflag]), hidx]
  exact ⟨rfl, rfl, rfl⟩

theorem mouseMove_drag_spec_witness :
    (handleMouseMove ⟨100, 50, [⟨5, 5, 0⟩], []⟩ ⟨true, 0, (0, 0)⟩ (1000, -70)
      (fun _ => background)).1 =
      ⟨100, 50, [⟨1000, -70, 0⟩], []⟩ ∧
    Canvas.isOutOfBounds ⟨100, 50, [⟨5, 5, 0⟩], []⟩ ⟨1000, -70, 0⟩ = true := by
  constructor
  · have h := (mouseMove_drag_spec ⟨100, 50, [⟨5, 5, 0⟩], []⟩ ⟨true, 0, (0, 0)⟩
      (1000, -70) (fun _ => background) ⟨5, 5, 0⟩ rfl rfl).2.1
    rw [h]
    norm_num [List.set, dragMove]
  · rw [Canvas.isOutOfBounds]
    norm_num

/-! ### C6: the reference triangle -/

/-- The test triangle of the spec: vertices (0,0), (10,0), (5,10) with
color [255, 0, 0, 1.0]. -/
def triC6 : Polygon := ⟨[⟨0, 0, 0⟩, ⟨10, 0, 0⟩, ⟨5, 10, 0⟩], [255, 0, 0, 1]⟩

/-- C6.  At scan line y = 5 the triangle yields exactly the two
intersections 2.5 and 7.5 and one span between them; at y = 0 (= minY)
the horizontal top edge is skipped while both slanted edges satisfy
y = p_low.y, yielding intersections 0 and 10 and one span over [0, 10];
both heights are visited by the scan loop. -/
theorem triangle_fill_facts :
    triC6.sortedIntersections 5 = [5/2, 15/2] ∧
    triC6.scanlineSpans 5 = [(5/2, 15/2)] ∧
    triC6.sortedIntersections 0 = [0, 10] ∧
    triC6.scanlineSpans 0 = [(0, 10)] ∧
    triC6.minY = 0 ∧ triC6.maxY = 10 ∧
    (5:ℚ) ∈ triC6.scanLines ∧ (0:ℚ) ∈ triC6.scanLines := by
  have h5 : triC6.sortedIntersections 5 = [5/2, 15/2] := by
    norm_num [triC6, Polygon.sortedIntersections, Polygon.scanlineIntersections,
      Polygon.edges, Polygon.vertexPairs, Polygon.pairAt, edgeOf,
      Polygon.getIntersection, List.range_succ, List.insertionSort,
      List.orderedInsert]
  have h0 : triC6.sortedIntersections 0 = [0, 10] := by
    norm_num [triC6, Polygon.sortedIntersections, Polygon.scanlineIntersections,
      Polygon.edges, Polygon.vertexPairs, Polygon.pairAt, edgeOf,
      Polygon.getIntersection, List.range_succ, List.insertionSort,
      List.orderedInsert]
  have hmin : triC6.minY = 0 := by
    norm_num [triC6, Polygon.minY, listMin, min_def]
  have hmax : triC6.maxY = 10 := by
    norm_num [triC6, Polygon.maxY, listMax, max_def]
  have hceil : (⌈triC6.maxY - triC6.minY⌉).toNat = 10 := by
    rw [hmin, hmax]
    rw [show (10:ℚ) - 0 = ((10:ℤ):ℚ) by norm_num, Int.ceil_intCast]
    rfl
  refine ⟨h5, ?_, h0, ?_, hmin, hmax, ?_, ?_⟩
  · rw [Polygon.scanlineSpans, h5]; rfl
  · rw [Polygon.scanlineSpans, h0]; rfl
  · rw [Polygon.scanLines, hceil, hmin]
    exact List.mem_map.mpr ⟨5, List.mem_range.mpr (by norm_num), by norm_num⟩
  · rw [Polygon.scanLines, hceil, hmin]
    exact List.mem_map.mpr ⟨0, List.mem_range.mpr (by norm_num), by norm_num⟩

/-! ### C2: which scan lines does the loop visit? -/

/-- C2 (amended).  The scan loop visits exactly the heights minY + k for
natural k with minY + k < maxY; every visited height lies in
[minY, maxY), and when minY is an integer the visited heights are
exactly the integer heights of [minY, maxY). -/
theorem scanLines_spec (poly : Polygon) (y : ℚ) :
    (y ∈ poly.scanLines ↔ ∃ k : ℕ, y = poly.minY + k ∧ y < poly.maxY) ∧
    (y ∈ poly.scanLines → poly.minY ≤ y ∧ y < poly.maxY) ∧
    ((∃ m : ℤ, poly.minY = (m : ℚ)) →
      (y ∈ poly.scanLines ↔
        ((∃ m : ℤ, y = (m : ℚ)) ∧ poly.minY ≤ y ∧ y < poly.maxY))) := by
  have hmem : y ∈ poly.scanLines ↔
      ∃ k : ℕ, y = poly.minY + k ∧ y < poly.maxY := by
    rw [Polygon.scanLines]
    constructor
    · intro h
      obtain ⟨k, hk, he⟩ := List.mem_map.mp h
      have hk2 : k < (⌈poly.maxY - poly.minY⌉).toNat := List.mem_range.mp hk
      have h1 : (k : ℤ) < ⌈poly.maxY - poly.minY⌉ := Int.lt_toNat.mp hk2
      have h2 : (k : ℚ) < poly.maxY - poly.minY := by
        have h3 := Int.lt_ceil.mp h1
        push_cast at h3
        exact h3
      exact ⟨k, he.symm, by rw [← he]; linarith⟩
    · rintro ⟨k, hy, hlt⟩
      apply List.mem_map.mpr
      refine ⟨k, List.mem_range.mpr ?_, hy.symm⟩
      have h2 : (k : ℚ) < poly.maxY - poly.minY := by
        rw [hy] at hlt; linarith
      exact Int.lt_toNat.mpr (Int.lt_ceil.mpr (by push_cast; exact h2))
  refine ⟨hmem, ?_, ?_⟩
  · intro h
    obtain ⟨k, hy, hlt⟩ := hmem.mp h
    refine ⟨?_, hlt⟩
    rw [hy]
    exact le_add_of_nonneg_right (by positivity)
  · rintro ⟨m, hm⟩
    constructor
    · intro hy
      obtain ⟨k, hyk, hlt⟩ := hmem.mp hy
      refine ⟨⟨m + k, by rw [hyk, hm]; push_cast; ring⟩, ?_, hlt⟩
      rw [hyk]
      exact le_add_of_nonneg_right (by positivity)
    · rintro ⟨⟨m2, hym⟩, hge, hlt⟩
      apply hmem.mpr
      have hm2 : m ≤ m2 := by
        rw [hm, hym] at hge
        exact_mod_cast hge
      refine ⟨(m2 - m).toNat, ?_, hlt⟩
      rw [hym, hm]
      have h0 : (0:ℤ) ≤ m2 - m := by omega
      have h1 : (((m2 - m).toNat : ℤ) : ℚ) = ((m2 - m : ℤ) : ℚ) := by
        rw [Int.toNat_of_nonneg h0]
      push_cast at h1 ⊢
      linarith

/-- A small axis-aligned rectangle used to instantiate scanLines_spec. -/
def rectC2 : Polygon :=
  ⟨[⟨0, 0, 0⟩, ⟨4, 0, 0⟩, ⟨4, 3, 0⟩, ⟨0, 3, 0⟩], [0, 255, 0, 1]⟩

theorem scanLines_spec_witness :
    ((1:ℚ) ∈ rectC2.scanLines ↔
      ((∃ m : ℤ, (1:ℚ) = (m : ℚ)) ∧ rectC2.minY ≤ 1 ∧ (1:ℚ) < rectC2.maxY)) ∧
    (1:ℚ) ∈ rectC2.scanLines := by
  have hminr : rectC2.minY = 0 := by
    norm_num [rectC2, Polygon.minY, listMin, min_def]
  have hmaxr : rectC2.maxY = 3 := by
    norm_num [rectC2, Polygon.maxY, listMax, max_def]
  have h := scanLines_spec rectC2 1
  have hint : ∃ m : ℤ, rectC2.minY = (m : ℚ) := ⟨0, by rw [hminr]; norm_num⟩
  have hiff := h.2.2 hint
  refine ⟨hiff, hiff.mpr ⟨⟨1, by norm_num⟩, ?_, ?_⟩⟩
  · rw [hminr]; norm_num
  · rw [hmaxr]; norm_num

/-- A triangle whose vertices sit at fractional heights 1/2 and 5/2. -/
def halfTriC2 : Polygon :=
  ⟨[⟨0, 1/2, 0⟩, ⟨4, 1/2, 0⟩, ⟨2, 5/2, 0⟩], [0, 0, 255, 1]⟩

/-- C2 counterexample.  For the fractional-height triangle, the integer
height 1 lies in [minY, maxY) yet the loop never visits it (it visits
1/2 and 3/2 instead), refuting the claim that every integer scan line of
[minY, maxY) is processed. -/
theorem scanLines_integer_counterexample :
    halfTriC2.minY ≤ (1:ℚ) ∧ (1:ℚ) < halfTriC2.maxY ∧
    (∃ m : ℤ, (1:ℚ) = (m : ℚ)) ∧ (1:ℚ) ∉ halfTriC2.scanLines ∧
    (1/2 : ℚ) ∈ halfTriC2.scanLines := by
  have hmin : halfTriC2.minY = 1/2 := by
    norm_num [halfTriC2, Polygon.minY, listMin, min_def]
  have hmax : halfTriC2.maxY = 5/2 := by
    norm_num [halfTriC2, Polygon.maxY, listMax, max_def]
  refine ⟨by rw [hmin]; norm_num, by rw [hmax]; norm_num, ⟨1, by norm_num⟩, ?_, ?_⟩
  · intro hmem
    rw [Polygon.scanLines] at hmem
    obtain ⟨k, hk, hkeq⟩ := List.mem_map.mp hmem
    rw [hmin] at hkeq
    have hk4 : ((2 * k : ℕ) : ℚ) = ((1 : ℕ) : ℚ) := by push_cast; linarith
    have hk5 : 2 * k = 1 := by exact_mod_cast hk4
    omega
  · rw [Polygon.scanLines]
    apply List.mem_map.mpr
    refine ⟨0, List.mem_range.mpr ?_, by rw [hmin]; norm_num⟩
    have hd : halfTriC2.maxY - halfTriC2.minY = 2 := by
      rw [hmin, hmax]; norm_num
    rw [hd, show ((2:ℚ)) = ((2:ℤ):ℚ) by norm_num, Int.ceil_intCast]
    norm_num

/-! ### C7: geometry of the edge pipeline -/

/-- A point as a coordinate pair. -/
def toPair (p : Point) : ℚ × ℚ := (p.x, p.y)

/-- Twice the signed area of the triangle P Q R (the orientation test). -/
def orient (P Q R : ℚ × ℚ) : ℚ :=
  (Q.1 - P.1) * (R.2 - P.2) - (Q.2 - P.2) * (R.1 - P.1)

/-- The vertex cycle of the polygon: index taken modulo the vertex
count, so it is periodic. -/
def Polygon.vtx (poly : Polygon) (i : ℕ) : Point :=
  poly.points.getD (i % poly.points.length) default

/-- The vertex cycle as coordinate pairs. -/
def Polygon.vp (poly : Polygon) (i : ℕ) : ℚ × ℚ := toPair (poly.vtx i)

/-- The interpolation formula of getIntersection, as a total function. -/
def interpX (P Q : ℚ × ℚ) (y : ℚ) : ℚ :=
  P.1 + (Q.1 - P.1) * (y - P.2) / (Q.2 - P.2)

/-- The contribution of loop iteration i to the intersection list of one
scan line: build the edge (skipping horizontal pairs, sorting by y), then
intersect with the scan line. -/
def Polygon.edgeHit (poly : Polygon) (y : ℚ) (i : ℕ) : Option ℚ :=
  (edgeOf (poly.pairAt i)).bind (fun e => Polygon.getIntersection e.1 e.2 y)

/-- The vertex cycle is in strictly convex position with orientation sign
σ: every index-increasing vertex triple has strictly σ-positive
orientation. -/
def Polygon.ConvexPos (poly : Polygon) (σ : ℚ) : Prop :=
  ∀ k, k < poly.points.length → ∀ j, j < k → ∀ i, i < j →
    0 < σ * orient (poly.vp i) (poly.vp j) (poly.vp k)

/-- The vertices of the polygon as a point set of the plane. -/
def Polygon.vertexSet (poly : Polygon) : Set (ℚ × ℚ) :=
  {q | ∃ p ∈ poly.points, toPair p = q}

theorem orient_cyclic (A B C : ℚ × ℚ) : orient A B C = orient B C A := by
  unfold orient; ring

theorem orient_self_left (A B : ℚ × ℚ) : orient A B A = 0 := by
  unfold orient; ring

theorem orient_self_right (A B : ℚ × ℚ) : orient A B B = 0 := by
  unfold orient; ring

/-- Core geometric fact: four points in strictly convex position (all
four orientations sharing the strict sign σ) cannot alternate around a
horizontal level — below, above, below, above (in either phase).  The
proof uses the linear dependency of four planar points with coefficients
given by the four orientations. -/
theorem no_alt (σ : ℚ) (A B C D : ℚ × ℚ) (y : ℚ)
    (h1 : 0 < σ * orient A B C) (h2 : 0 < σ * orient A B D)
    (h3 : 0 < σ * orient A C D) (h4 : 0 < σ * orient B C D)
    (hp : (A.2 ≤ y ∧ y < B.2 ∧ C.2 ≤ y ∧ y < D.2) ∨
          (y < A.2 ∧ B.2 ≤ y ∧ y < C.2 ∧ D.2 ≤ y)) : False := by
  have k1 : σ * orient B C D * A.2 - σ * orient A C D * B.2 +
      σ * orient A B D * C.2 - σ * orient A B C * D.2 = 0 := by
    unfold orient; ring
  have k2 : (σ * orient B C D - σ * orient A C D +
      σ * orient A B D - σ * orient A B C) * y = 0 := by
    unfold orient; ring
  rcases hp with ⟨hA, hB, hC, hD⟩ | ⟨hA, hB, hC, hD⟩
  · nlinarith [mul_nonneg h4.le (sub_nonneg.mpr hA),
      mul_pos h3 (sub_pos.mpr hB),
      mul_nonneg h2.le (sub_nonneg.mpr hC),
      mul_pos h1 (sub_pos.mpr hD), k1, k2]
  · nlinarith [mul_pos h4 (sub_pos.mpr hA),
      mul_nonneg h3.le (sub_nonneg.mpr hB),
      mul_pos h2 (sub_pos.mpr hC),
      mul_nonneg h1.le (sub_nonneg.mpr hD), k1, k2]

theorem Polygon.vtx_mod (poly : Polygon) (i : ℕ) :
    poly.vtx (i % poly.points.length) = poly.vtx i := by
  unfold Polygon.vtx
  rw [Nat.mod_mod_of_dvd i dvd_rfl]

theorem Polygon.vtx_succ_mod (poly : Polygon) (i : ℕ) :
    poly.vtx ((i % poly.points.length) + 1) = poly.vtx (i + 1) := by
  unfold Polygon.vtx
  congr 1
  conv_rhs => rw [Nat.add_mod]
  conv_lhs => rw [Nat.add_mod, Nat.mod_mod_of_dvd i dvd_rfl]

theorem Polygon.vtx_add_len (poly : Polygon) (i : ℕ) :
    poly.vtx (i + poly.points.length) = poly.vtx i := by
  unfold Polygon.vtx
  rw [Nat.add_mod_right]

theorem Polygon.vtx_len (poly : Polygon) :
    poly.vtx poly.points.length = poly.vtx 0 := by
  unfold Polygon.vtx
  rw [Nat.mod_self, Nat.zero_mod]

theorem Polygon.pairAt_eq (poly : Polygon) (i : ℕ)
    (h : i < poly.points.length) :
    poly.pairAt i = (poly.vtx i, poly.vtx (i + 1)) := by
  unfold Polygon.pairAt Polygon.vtx
  rw [Nat.mod_eq_of_lt h]

theorem interpX_symm (P Q : ℚ × ℚ) (y : ℚ) (h : P.2 ≠ Q.2) :
    interpX P Q y = interpX Q P y := by
  unfold interpX
  have h2 : Q.2 - P.2 ≠ 0 := sub_ne_zero.mpr (Ne.symm h)
  have h3 : P.2 - Q.2 ≠ 0 := sub_ne_zero.mpr h
  field_simp
  ring

theorem Polygon.edgeHit_up (poly : Polygon) (y : ℚ) (i : ℕ)
    (h : i < poly.points.length)
    (hb1 : (poly.vtx i).y ≤ y) (hb2 : y < (poly.vtx (i+1)).y) :
    poly.edgeHit y i = some (interpX (poly.vp i) (poly.vp (i+1)) y) := by
  have hlt : (poly.vtx i).y < (poly.vtx (i+1)).y := lt_of_le_of_lt hb1 hb2
  rw [Polygon.edgeHit, poly.pairAt_eq i h, edgeOf]
  rw [if_neg (ne_of_lt hlt), if_neg (not_lt.mpr hlt.le)]
  show Polygon.getIntersection (poly.vtx i) (poly.vtx (i+1)) y = _
  rw [Polygon.getIntersection, if_neg]
  · rfl
  · push_neg
    exact ⟨ne_of_lt hlt, hb1, hb2⟩

theorem Polygon.edgeHit_down (poly : Polygon) (y : ℚ) (i : ℕ)
    (h : i < poly.points.length)
    (hb1 : ¬((poly.vtx i).y ≤ y)) (hb2 : (poly.vtx (i+1)).y ≤ y) :
    poly.edgeHit y i = some (interpX (poly.vp i) (poly.vp (i+1)) y) := by
  have hlt : (poly.vtx (i+1)).y < (poly.vtx i).y :=
    lt_of_le_of_lt hb2 (not_le.mp hb1)
  rw [Polygon.edgeHit, poly.pairAt_eq i h, edgeOf]
  rw [if_neg (ne_of_gt hlt), if_pos hlt]
  show Polygon.getIntersection (poly.vtx (i+1)) (poly.vtx i) y = _
  rw [Polygon.getIntersection, if_neg]
  · have hsym := interpX_symm (poly.vp i) (poly.vp (i+1)) y (ne_of_gt hlt)
    exact congrArg some hsym.symm
  · push_neg
    exact ⟨ne_of_lt hlt, hb2, not_le.mp hb1⟩

theorem Polygon.edgeHit_none (poly : Polygon) (y : ℚ) (i : ℕ)
    (h : i < poly.points.length)
    (hiff : ((poly.vtx i).y ≤ y ↔ (poly.vtx (i+1)).y ≤ y)) :
    poly.edgeHit y i = none := by
  rw [Polygon.edgeHit, poly.pairAt_eq i h, edgeOf]
  by_cases heq : (poly.vtx i).y = (poly.vtx (i+1)).y
  · rw [if_pos heq]; rfl
  · rw [if_neg heq]
    by_cases hb : (poly.vtx i).y ≤ y
    · have hb2 : (poly.vtx (i+1)).y ≤ y := hiff.mp hb
      by_cases hlt : (poly.vtx (i+1)).y < (poly.vtx i).y
      · rw [if_pos hlt]
        show Polygon.getIntersection (poly.vtx (i+1)) (poly.vtx i) y = none
        rw [Polygon.getIntersection, if_pos (Or.inr (Or.inr hb))]
      · rw [if_neg hlt]
        show Polygon.getIntersection (poly.vtx i) (poly.vtx (i+1)) y = none
        rw [Polygon.getIntersection, if_pos (Or.inr (Or.inr hb2))]
    · have hb2 : ¬((poly.vtx (i+1)).y ≤ y) := fun h2 => hb (hiff.mpr h2)
      by_cases hlt : (poly.vtx (i+1)).y < (poly.vtx i).y
      · rw [if_pos hlt]
        show Polygon.getIntersection (poly.vtx (i+1)) (poly.vtx i) y = none
        rw [Polygon.getIntersection, if_pos (Or.inr (Or.inl (not_le.mp hb2)))]
      · rw [if_neg hlt]
        show Polygon.getIntersection (poly.vtx i) (poly.vtx (i+1)) y = none
        rw [Polygon.getIntersection, if_pos (Or.inr (Or.inl (not_le.mp hb)))]

theorem Polygon.scanlineIntersections_eq (poly : Polygon) (y : ℚ) :
    poly.scanlineIntersections y =
      (List.range poly.points.length).filterMap (poly.edgeHit y) := by
  rw [Polygon.scanlineIntersections, Polygon.edges, Polygon.vertexPairs,
    List.filterMap_filterMap, List.filterMap_map]
  rfl

/-! ### Attainment of minY and maxY -/

theorem listMin_le_init : ∀ (l : List ℚ) (a : ℚ), listMin a l ≤ a := by
  intro l
  induction l with
  | nil => intro a; exact le_refl a
  | cons x t ih => intro a; exact (ih (min a x)).trans (min_le_left a x)

theorem listMin_attained : ∀ (l : List ℚ) (a : ℚ),
    listMin a l = a ∨ listMin a l ∈ l := by
  intro l
  induction l with
  | nil => intro a; exact Or.inl rfl
  | cons z t ih =>
      intro a
      rcases ih (min a z) with h | h
      · rcases le_total a z with hle | hle
        · left
          rw [show listMin a (z :: t) = listMin (min a z) t from rfl, h,
            min_eq_left hle]
        · right
          rw [show listMin a (z :: t) = listMin (min a z) t from rfl, h,
            min_eq_right hle]
          exact List.mem_cons_self z t
      · right
        exact List.mem_cons_of_mem z h

theorem listMax_ge_init : ∀ (l : List ℚ) (a : ℚ), a ≤ listMax a l := by
  intro l
  induction l with
  | nil => intro a; exact le_refl a
  | cons x t ih => intro a; exact (le_max_left a x).trans (ih (max a x))

theorem listMax_attained : ∀ (l : List ℚ) (a : ℚ),
    listMax a l = a ∨ listMax a l ∈ l := by
  intro l
  induction l with
  | nil => intro a; exact Or.inl rfl
  | cons z t ih =>
      intro a
      rcases ih (max a z) with h | h
      · rcases le_total z a with hle | hle
        · left
          rw [show listMax a (z :: t) = listMax (max a z) t from rfl, h,
            max_eq_left hle]
        · right
          rw [show listMax a (z :: t) = listMax (max a z) t from rfl, h,
            max_eq_right hle]
          exact List.mem_cons_self z t
      · right
        exact List.mem_cons_of_mem z h

theorem Polygon.exists_minY_vtx (poly : Polygon) (hne : poly.points ≠ []) :
    ∃ k, k < poly.points.length ∧ (poly.vtx k).y = poly.minY := by
  obtain ⟨p0, t, hpts⟩ := List.exists_cons_of_ne_nil hne
  have hmin : poly.minY = listMin p0.y (t.map Point.y) := by
    unfold Polygon.minY
    rw [hpts, List.map_cons]
  have hex : ∃ p ∈ poly.points, p.y = poly.minY := by
    rcases listMin_attained (t.map Point.y) p0.y with h | h
    · exact ⟨p0, by rw [hpts]; exact List.mem_cons_self p0 t, by rw [hmin, h]⟩
    · obtain ⟨p, hpt, hpe⟩ := List.mem_map.mp h
      exact ⟨p, by rw [hpts]; exact List.mem_cons_of_mem p0 hpt,
        by rw [hmin, ← hpe]⟩
  obtain ⟨p, hp, hpy⟩ := hex
  obtain ⟨k, hk, hke⟩ := List.mem_iff_getElem.mp hp
  refine ⟨k, hk, ?_⟩
  unfold Polygon.vtx
  rw [Nat.mod_eq_of_lt hk, List.getD_eq_getElem _ _ hk, hke, hpy]

theorem Polygon.exists_maxY_vtx (poly : Polygon) (hne : poly.points ≠ []) :
    ∃ k, k < poly.points.length ∧ (poly.vtx k).y = poly.maxY := by
  obtain ⟨p0, t, hpts⟩ := List.exists_cons_of_ne_nil hne
  have hmax : poly.maxY = listMax p0.y (t.map Point.y) := by
    unfold Polygon.maxY
    rw [hpts, List.map_cons]
  have hex : ∃ p ∈ poly.points, p.y = poly.maxY := by
    rcases listMax_attained (t.map Point.y) p0.y with h | h
    · exact ⟨p0, by rw [hpts]; exact List.mem_cons_self p0 t, by rw [hmax, h]⟩
    · obtain ⟨p, hpt, hpe⟩ := List.mem_map.mp h
      exact ⟨p, by rw [hpts]; exact List.mem_cons_of_mem p0 hpt,
        by rw [hmax, ← hpe]⟩
  obtain ⟨p, hp, hpy⟩ := hex
  obtain ⟨k, hk, hke⟩ := List.mem_iff_getElem.mp hp
  refine ⟨k, hk, ?_⟩
  unfold Polygon.vtx
  rw [Nat.mod_eq_of_lt hk, List.getD_eq_getElem _ _ hk, hke, hpy]

/-! ### Crossing edges of one scan line -/

/-- The vertex at index i lies at or below the scan line. -/
def Polygon.belowAt (poly : Polygon) (y : ℚ) (i : ℕ) : Prop :=
  (poly.vtx i).y ≤ y

/-- Loop iteration i reads an upward edge crossing the scan line. -/
def Polygon.upAt (poly : Polygon) (y : ℚ) (i : ℕ) : Prop :=
  poly.belowAt y i ∧ ¬poly.belowAt y (i + 1)

/-- Loop iteration i reads a downward edge crossing the scan line. -/
def Polygon.dnAt (poly : Polygon) (y : ℚ) (i : ℕ) : Prop :=
  ¬poly.belowAt y i ∧ poly.belowAt y (i + 1)

theorem Polygon.upAt_mod (poly : Polygon) (y : ℚ) (i : ℕ) :
    poly.upAt y (i % poly.points.length) ↔ poly.upAt y i := by
  unfold Polygon.upAt Polygon.belowAt
  rw [poly.vtx_mod, poly.vtx_succ_mod]

theorem Polygon.dnAt_mod (poly : Polygon) (y : ℚ) (i : ℕ) :
    poly.dnAt y (i % poly.points.length) ↔ poly.dnAt y i := by
  unfold Polygon.dnAt Polygon.belowAt
  rw [poly.vtx_mod, poly.vtx_succ_mod]

/-- Discrete intermediate value: between a true index and a later false
index there is a true-to-false transition. -/
theorem exists_transition (g : ℕ → Prop) :
    ∀ j i, i < j → g i → ¬g j → ∃ k, i ≤ k ∧ k < j ∧ g k ∧ ¬g (k + 1) := by
  intro j
  induction j with
  | zero => intro i hij _ _; exact absurd hij (Nat.not_lt_zero i)
  | succ j ih =>
      intro i hij hgi hgj
      by_cases hj : g j
      · exact ⟨j, by omega, by omega, hj, hgj⟩
      · rcases Nat.lt_or_ge i j with h | h
        · obtain ⟨k, h1, h2, h3, h4⟩ := ih i h hgi hj
          exact ⟨k, h1, by omega, h3, h4⟩
        · have hij2 : i = j := by omega
          subst hij2
          exact absurd hgi hj

theorem Polygon.exists_upAt (poly : Polygon) (y : ℚ) (k1 k2 : ℕ)
    (hk1 : k1 < poly.points.length) (hk2 : k2 < poly.points.length)
    (hb1 : poly.belowAt y k1) (hb2 : ¬poly.belowAt y k2) :
    ∃ i, i < poly.points.length ∧ poly.upAt y i := by
  have hn : 0 < poly.points.length := lt_of_le_of_lt (Nat.zero_le k1) hk1
  rcases Nat.lt_or_ge k1 k2 with h | h
  · obtain ⟨k, _, hb, hc, hd⟩ :=
      exists_transition (poly.belowAt y) k2 k1 h hb1 hb2
    exact ⟨k, lt_trans hb hk2, hc, hd⟩
  · have hb2' : ¬poly.belowAt y (k2 + poly.points.length) := by
      unfold Polygon.belowAt at hb2 ⊢
      rw [poly.vtx_add_len]
      exact hb2
    have hlt : k1 < k2 + poly.points.length := by omega
    obtain ⟨k, _, _, hc, hd⟩ :=
      exists_transition (poly.belowAt y) (k2 + poly.points.length) k1 hlt hb1 hb2'
    exact ⟨k % poly.points.length, Nat.mod_lt k hn,
      (poly.upAt_mod y k).mpr ⟨hc, hd⟩⟩

theorem Polygon.exists_dnAt (poly : Polygon) (y : ℚ) (k1 k2 : ℕ)
    (hk1 : k1 < poly.points.length) (hk2 : k2 < poly.points.length)
    (hb1 : poly.belowAt y k1) (hb2 : ¬poly.belowAt y k2) :
    ∃ i, i < poly.points.length ∧ poly.dnAt y i := by
  have hn : 0 < poly.points.length := lt_of_le_of_lt (Nat.zero_le k1) hk1
  rcases Nat.lt_or_ge k2 k1 with h | h
  · obtain ⟨k, _, hb, hc, hd⟩ :=
      exists_transition (fun i => ¬poly.belowAt y i) k1 k2 h hb2 (not_not.mpr hb1)
    exact ⟨k, lt_trans hb hk1, hc, not_not.mp hd⟩
  · have hb1' : poly.belowAt y (k1 + poly.points.length) := by
      unfold Polygon.belowAt at hb1 ⊢
      rw [poly.vtx_add_len]
      exact hb1
    have hlt : k2 < k1 + poly.points.length := by omega
    obtain ⟨k, _, _, hc, hd⟩ :=
      exists_transition (fun i => ¬poly.belowAt y i) (k1 + poly.points.length)
        k2 hlt hb2 (not_not.mpr hb1')
    exact ⟨k % poly.points.length, Nat.mod_lt k hn,
      (poly.dnAt_mod y k).mpr ⟨hc, not_not.mp hd⟩⟩

theorem Polygon.not_upAt_pair (poly : Polygon) (y σ : ℚ)
    (hc : poly.ConvexPos σ) {i j : ℕ} (hij : i < j)
    (hjn : j < poly.points.length)
    (hui : poly.upAt y i) (huj : poly.upAt y j) : False := by
  have hij1 : i + 1 < j := by
    rcases Nat.lt_or_ge (i + 1) j with h | h
    · exact h
    · have he : i + 1 = j := by omega
      exact absurd huj.1 (he ▸ hui.2)
  by_cases hw : j + 1 < poly.points.length
  · exact no_alt σ (poly.vp i) (poly.vp (i+1)) (poly.vp j) (poly.vp (j+1)) y
      (hc j hjn (i+1) hij1 i (Nat.lt_succ_self i))
      (hc (j+1) hw (i+1) (by omega) i (by omega))
      (hc (j+1) hw j (by omega) i (by omega))
      (hc (j+1) hw j (by omega) (i+1) hij1)
      (Or.inl ⟨hui.1, not_le.mp hui.2, huj.1, not_le.mp huj.2⟩)
  · have hjn1 : j + 1 = poly.points.length := by omega
    have hb0 : ¬poly.belowAt y 0 := by
      have h2 := huj.2
      unfold Polygon.belowAt at h2 ⊢
      rw [hjn1, poly.vtx_len] at h2
      exact h2
    have hi0 : 0 < i := by
      rcases Nat.eq_zero_or_pos i with h | h
      · exact absurd (h ▸ hui.1) hb0
      · exact h
    exact no_alt σ (poly.vp 0) (poly.vp i) (poly.vp (i+1)) (poly.vp j) y
      (hc (i+1) (by omega) i (by omega) 0 hi0)
      (hc j hjn i hij 0 hi0)
      (hc j hjn (i+1) hij1 0 (by omega))
      (hc j hjn (i+1) hij1 i (by omega))
      (Or.inr ⟨not_le.mp hb0, hui.1, not_le.mp hui.2, huj.1⟩)

theorem Polygon.not_dnAt_pair (poly : Polygon) (y σ : ℚ)
    (hc : poly.ConvexPos σ) {i j : ℕ} (hij : i < j)
    (hjn : j < poly.points.length)
    (hdi : poly.dnAt y i) (hdj : poly.dnAt y j) : False := by
  have hij1 : i + 1 < j := by
    rcases Nat.lt_or_ge (i + 1) j with h | h
    · exact h
    · have he : i + 1 = j := by omega
      exact absurd (he ▸ hdi.2) hdj.1
  by_cases hw : j + 1 < poly.points.length
  · exact no_alt σ (poly.vp i) (poly.vp (i+1)) (poly.vp j) (poly.vp (j+1)) y
      (hc j hjn (i+1) hij1 i (Nat.lt_succ_self i))
      (hc (j+1) hw (i+1) (by omega) i (by omega))
      (hc (j+1) hw j (by omega) i (by omega))
      (hc (j+1) hw j (by omega) (i+1) hij1)
      (Or.inr ⟨not_le.mp hdi.1, hdi.2, not_le.mp hdj.1, hdj.2⟩)
  · have hjn1 : j + 1 = poly.points.length := by omega
    have hb0 : poly.belowAt y 0 := by
      have h2 := hdj.2
      unfold Polygon.belowAt at h2 ⊢
      rw [hjn1, poly.vtx_len] at h2
      exact h2
    have hi0 : 0 < i := by
      rcases Nat.eq_zero_or_pos i with h | h
      · exact absurd (h ▸ hb0) hdi.1
      · exact h
    exact no_alt σ (poly.vp 0) (poly.vp i) (poly.vp (i+1)) (poly.vp j) y
      (hc (i+1) (by omega) i (by omega) 0 hi0)
      (hc j hjn i hij 0 hi0)
      (hc j hjn (i+1) hij1 0 (by omega))
      (hc j hjn (i+1) hij1 i (by omega))
      (Or.inl ⟨hb0, not_le.mp hdi.1, hdi.2, not_le.mp hdj.1⟩)

theorem Polygon.upAt_unique (poly : Polygon) (y σ : ℚ)
    (hc : poly.ConvexPos σ) {i j : ℕ}
    (hi : i < poly.points.length) (hj : j < poly.points.length)
    (hui : poly.upAt y i) (huj : poly.upAt y j) : i = j := by
  rcases lt_trichotomy i j with h | h | h
  · exact (poly.not_upAt_pair y σ hc h hj hui huj).elim
  · exact h
  · exact (poly.not_upAt_pair y σ hc h hi huj hui).elim

theorem Polygon.dnAt_unique (poly : Polygon) (y σ : ℚ)
    (hc : poly.ConvexPos σ) {i j : ℕ}
    (hi : i < poly.points.length) (hj : j < poly.points.length)
    (hdi : poly.dnAt y i) (hdj : poly.dnAt y j) : i = j := by
  rcases lt_trichotomy i j with h | h | h
  · exact (poly.not_dnAt_pair y σ hc h hj hdi hdj).elim
  · exact h
  · exact (poly.not_dnAt_pair y σ hc h hi hdj hdi).elim

/-! ### Extracting the two-element intersection list -/

theorem filterMap_range_pair {f : ℕ → Option ℚ} {N a b : ℕ} {xa xb : ℚ}
    (hab : a < b) (hbN : b < N) (hfa : f a = some xa) (hfb : f b = some xb)
    (hnone : ∀ i, i < N → i ≠ a → i ≠ b → f i = none) :
    (List.range N).filterMap f = [xa, xb] := by
  have hA : (List.range a).filterMap f = [] := by
    rw [List.filterMap_eq_nil_iff]
    intro x hx
    have hxa := List.mem_range.mp hx
    exact hnone x (by omega) (by omega) (by omega)
  have hAB : ((List.range (b - (a+1))).map ((a+1) + ·)).filterMap f = [] := by
    rw [List.filterMap_eq_nil_iff]
    intro x hx
    obtain ⟨j, hj, rfl⟩ := List.mem_map.mp hx
    have hjb := List.mem_range.mp hj
    exact hnone ((a+1) + j) (by omega) (by omega) (by omega)
  have hB : ((List.range (N - (b+1))).map ((b+1) + ·)).filterMap f = [] := by
    rw [List.filterMap_eq_nil_iff]
    intro x hx
    obtain ⟨j, hj, rfl⟩ := List.mem_map.mp hx
    have hjN := List.mem_range.mp hj
    exact hnone ((b+1) + j) (by omega) (by omega) (by omega)
  have hfirst : (List.range b).filterMap f = [xa] := by
    conv_lhs => rw [show b = (a+1) + (b - (a+1)) from by omega]
    rw [List.range_add, List.filterMap_append, List.range_succ,
      List.filterMap_append, hA, hAB]
    simp [List.filterMap_cons, hfa]
  conv_lhs => rw [show N = (b+1) + (N - (b+1)) from by omega]
  rw [List.range_add, List.filterMap_append, List.range_succ,
    List.filterMap_append, hfirst, hB]
  simp [List.filterMap_cons, hfb]

theorem insertionSort_pair (u v : ℚ) :
    [u, v].insertionSort (· ≤ ·) = [min u v, max u v] := by
  by_cases h : u ≤ v
  · rw [min_eq_left h, max_eq_right h]
    simp [List.insertionSort, List.orderedInsert, h]
  · rw [min_eq_right (le_of_lt (not_le.mp h)),
      max_eq_left (le_of_lt (not_le.mp h))]
    simp [List.insertionSort, List.orderedInsert, h]

/-! ### The convex hull slice of one scan line -/

theorem halfplane_convex (σ : ℚ) (P Q : ℚ × ℚ) :
    Convex ℚ {R : ℚ × ℚ | 0 ≤ σ * orient P Q R} := by
  intro R1 h1 R2 h2 a b ha hb hab
  show 0 ≤ σ * orient P Q (a • R1 + b • R2)
  have he : orient P Q (a • R1 + b • R2) =
      a * orient P Q R1 + b * orient P Q R2 := by
    have hb1 : b = 1 - a := by linarith
    subst hb1
    unfold orient
    simp only [Prod.fst_add, Prod.snd_add, Prod.smul_fst, Prod.smul_snd,
      smul_eq_mul]
    ring
  rw [he]
  have g1 : (0:ℚ) ≤ a * (σ * orient P Q R1) := mul_nonneg ha h1
  have g2 : (0:ℚ) ≤ b * (σ * orient P Q R2) := mul_nonneg hb h2
  nlinarith [g1, g2]

theorem Polygon.side_of_edge (poly : Polygon) (σ : ℚ) (hc : poly.ConvexPos σ)
    (e : ℕ) (he : e < poly.points.length) (k : ℕ)
    (hk : k < poly.points.length) :
    0 ≤ σ * orient (poly.vp e) (poly.vp (e+1)) (poly.vp k) := by
  by_cases hw : e + 1 < poly.points.length
  · rcases lt_trichotomy k e with h | h | h
    · have h2 := hc (e+1) hw e (Nat.lt_succ_self e) k h
      rw [orient_cyclic] at h2
      exact h2.le
    · rw [h, orient_self_left, mul_zero]
    · rcases lt_trichotomy k (e+1) with h2 | h2 | h2
      · omega
      · rw [h2, orient_self_right, mul_zero]
      · exact (hc k hk (e+1) h2 e (Nat.lt_succ_self e)).le
  · have hen : e + 1 = poly.points.length := by omega
    have hvp : poly.vp (e+1) = poly.vp 0 := by
      unfold Polygon.vp
      rw [hen, poly.vtx_len]
    rw [hvp]
    rcases Nat.eq_zero_or_pos k with hk0 | hk0
    · rw [hk0, orient_self_right, mul_zero]
    · rcases lt_trichotomy k e with h | h | h
      · have h2 := hc e he k h 0 hk0
        rw [orient_cyclic, orient_cyclic] at h2
        exact h2.le
      · rw [h, orient_self_left, mul_zero]
      · omega

theorem Polygon.vp_mem_vertexSet (poly : Polygon) (i : ℕ)
    (hn : 0 < poly.points.length) : poly.vp i ∈ poly.vertexSet := by
  unfold Polygon.vp Polygon.vertexSet Polygon.vtx
  have hlt : i % poly.points.length < poly.points.length := Nat.mod_lt i hn
  refine ⟨poly.points.getD (i % poly.points.length) default, ?_, rfl⟩
  rw [List.getD_eq_getElem _ _ hlt]
  exact List.getElem_mem hlt

theorem Polygon.hull_subset_halfplane (poly : Polygon) (σ : ℚ)
    (hc : poly.ConvexPos σ) (e : ℕ) (he : e < poly.points.length) :
    convexHull ℚ poly.vertexSet ⊆
      {R : ℚ × ℚ | 0 ≤ σ * orient (poly.vp e) (poly.vp (e+1)) R} := by
  apply convexHull_min
  · rintro q ⟨p, hp, rfl⟩
    obtain ⟨k, hk, hke⟩ := List.mem_iff_getElem.mp hp
    have hvq : poly.vp k = toPair p := by
      unfold Polygon.vp Polygon.vtx
      rw [Nat.mod_eq_of_lt hk, List.getD_eq_getElem _ _ hk, hke]
    rw [← hvq]
    exact poly.side_of_edge σ hc e he k hk
  · exact halfplane_convex σ _ _

/-- Rewriting the orientation of a point on the scan line through the
interpolated crossing of a non-horizontal edge. -/
theorem orient_level (P Q : ℚ × ℚ) (x y : ℚ) (h : P.2 ≠ Q.2) :
    orient P Q (x, y) = (P.2 - Q.2) * (x - interpX P Q y) := by
  unfold orient interpX
  have h2 : Q.2 - P.2 ≠ 0 := sub_ne_zero.mpr (Ne.symm h)
  field_simp
  ring

theorem Polygon.crossing_mem_hull (poly : Polygon) (e : ℕ)
    (hn : 0 < poly.points.length) (y : ℚ)
    (hcr : ((poly.vp e).2 ≤ y ∧ y < (poly.vp (e+1)).2) ∨
           ((poly.vp (e+1)).2 ≤ y ∧ y < (poly.vp e).2)) :
    ((interpX (poly.vp e) (poly.vp (e+1)) y, y) : ℚ × ℚ) ∈
      convexHull ℚ poly.vertexSet := by
  set P := poly.vp e with hP
  set Q := poly.vp (e+1) with hQ
  have hPQ : Q.2 - P.2 ≠ 0 := by
    rcases hcr with ⟨h1, h2⟩ | ⟨h1, h2⟩
    · exact ne_of_gt (by linarith)
    · exact ne_of_lt (by linarith)
  set t : ℚ := (y - P.2) / (Q.2 - P.2) with ht
  have ht0 : 0 ≤ t := by
    rw [ht, div_nonneg_iff]
    rcases hcr with ⟨h1, h2⟩ | ⟨h1, h2⟩
    · exact Or.inl ⟨by linarith, by linarith⟩
    · exact Or.inr ⟨by linarith, by linarith⟩
  have ht1 : t ≤ 1 := by
    rcases hcr with ⟨h1, h2⟩ | ⟨h1, h2⟩
    · rw [ht, div_le_one (by linarith)]
      linarith
    · rw [ht, show y - P.2 = -(P.2 - y) from by ring,
        show Q.2 - P.2 = -(P.2 - Q.2) from by ring, neg_div_neg_eq,
        div_le_one (by linarith)]
      linarith
  have hcomb : (1 - t) • P + t • Q = (interpX P Q y, y) := by
    refine Prod.ext ?_ ?_
    · simp only [Prod.fst_add, Prod.smul_fst, smul_eq_mul]
      unfold interpX
      rw [ht]
      field_simp
      ring
    · simp only [Prod.snd_add, Prod.smul_snd, smul_eq_mul]
      rw [ht]
      field_simp
      ring
  have hPm : P ∈ convexHull ℚ poly.vertexSet :=
    subset_convexHull ℚ _ (poly.vp_mem_vertexSet e hn)
  have hQm : Q ∈ convexHull ℚ poly.vertexSet :=
    subset_convexHull ℚ _ (poly.vp_mem_vertexSet (e+1) hn)
  have hmem := (convex_convexHull ℚ poly.vertexSet) hPm hQm
    (by linarith : (0:ℚ) ≤ 1 - t) ht0 (by ring)
  rw [hcomb] at hmem
  exact hmem

theorem horiz_between_mem {S : Set (ℚ × ℚ)} (hS : Convex ℚ S)
    {x1 x2 x yl : ℚ}
    (h1 : ((x1, yl) : ℚ × ℚ) ∈ S) (h2 : ((x2, yl) : ℚ × ℚ) ∈ S)
    (hx1 : x1 ≤ x) (hx2 : x ≤ x2) : ((x, yl) : ℚ × ℚ) ∈ S := by
  rcases eq_or_lt_of_le (hx1.trans hx2) with heq | hlt
  · have hx : x = x1 := le_antisymm (heq ▸ hx2) hx1
    rw [hx]
    exact h1
  · have hden : (0:ℚ) < x2 - x1 := by linarith
    have hcomb : ((x2 - x) / (x2 - x1)) • ((x1, yl) : ℚ × ℚ) +
        ((x - x1) / (x2 - x1)) • ((x2, yl) : ℚ × ℚ) = (x, yl) := by
      refine Prod.ext ?_ ?_
      · simp only [Prod.fst_add, Prod.smul_fst, smul_eq_mul]
        field_simp
        ring
      · simp only [Prod.snd_add, Prod.smul_snd, smul_eq_mul]
        field_simp
        ring
    have ha : (0:ℚ) ≤ (x2 - x) / (x2 - x1) := div_nonneg (by linarith) hden.le
    have hb : (0:ℚ) ≤ (x - x1) / (x2 - x1) := div_nonneg (by linarith) hden.le
    have hab : (x2 - x) / (x2 - x1) + (x - x1) / (x2 - x1) = 1 := by
      field_simp
    have hmem := hS h1 h2 ha hb hab
    rw [hcomb] at hmem
    exact hmem

theorem Polygon.vp_snd (poly : Polygon) (i : ℕ) :
    (poly.vp i).2 = (poly.vtx i).y := rfl

/-- For a polygon in strictly convex position (orientation sign σ) and a
scan line strictly between minY and maxY, the sorted intersection list
has exactly two entries, one span is drawn, and that span is exactly the
slice of the convex hull of the vertices at that height. -/
theorem Polygon.convex_single_span_core (poly : Polygon) (y σ : ℚ)
    (hσ : σ = 1 ∨ σ = -1) (hc : poly.ConvexPos σ)
    (hy1 : poly.minY ≤ y) (hy2 : y < poly.maxY) :
    ∃ x1 x2 : ℚ, x1 ≤ x2 ∧
      (poly.sortedIntersections y).length = 2 ∧
      poly.scanlineSpans y = [(x1, x2)] ∧
      {x : ℚ | ((x, y) : ℚ × ℚ) ∈ convexHull ℚ poly.vertexSet} =
        Set.Icc x1 x2 := by
  have hne : poly.points ≠ [] := by
    intro h0
    have h1 : poly.minY = 0 := by
      unfold Polygon.minY
      rw [h0, List.map_nil]
    have h2 : poly.maxY = 0 := by
      unfold Polygon.maxY
      rw [h0, List.map_nil]
    rw [h1] at hy1
    rw [h2] at hy2
    linarith
  have hn : 0 < poly.points.length := List.length_pos.mpr hne
  obtain ⟨kmin, hkmin, hminv⟩ := poly.exists_minY_vtx hne
  obtain ⟨kmax, hkmax, hmaxv⟩ := poly.exists_maxY_vtx hne
  have hbmin : poly.belowAt y kmin := by
    unfold Polygon.belowAt
    rw [hminv]
    exact hy1
  have hbmax : ¬poly.belowAt y kmax := by
    unfold Polygon.belowAt
    rw [hmaxv]
    exact not_le.mpr hy2
  obtain ⟨iu, hiun, hup⟩ := poly.exists_upAt y kmin kmax hkmin hkmax hbmin hbmax
  obtain ⟨idn, hidnn, hdn⟩ := poly.exists_dnAt y kmin kmax hkmin hkmax hbmin hbmax
  have hud : iu ≠ idn := fun h => hdn.1 (h ▸ hup.1)
  have hup1 : (poly.vtx iu).y ≤ y := hup.1
  have hup2 : y < (poly.vtx (iu+1)).y := not_le.mp hup.2
  have hdn1 : y < (poly.vtx idn).y := not_le.mp hdn.1
  have hdn2 : (poly.vtx (idn+1)).y ≤ y := hdn.2
  have hfu : poly.edgeHit y iu =
      some (interpX (poly.vp iu) (poly.vp (iu+1)) y) :=
    poly.edgeHit_up y iu hiun hup1 hup2
  have hfd : poly.edgeHit y idn =
      some (interpX (poly.vp idn) (poly.vp (idn+1)) y) :=
    poly.edgeHit_down y idn hidnn hdn.1 hdn2
  set xu := interpX (poly.vp iu) (poly.vp (iu+1)) y with hxu
  set xd := interpX (poly.vp idn) (poly.vp (idn+1)) y with hxd
  have hnone : ∀ i, i < poly.points.length → i ≠ iu → i ≠ idn →
      poly.edgeHit y i = none := by
    intro i hi h1 h2
    apply poly.edgeHit_none y i hi
    constructor
    · intro hbb
      by_contra hb2
      exact h1 (poly.upAt_unique y σ hc hi hiun ⟨hbb, hb2⟩ hup)
    · intro hbb
      by_contra hb2
      exact h2 (poly.dnAt_unique y σ hc hi hidnn ⟨hb2, hbb⟩ hdn)
  have hlist2 : poly.scanlineIntersections y =
      if iu < idn then [xu, xd] else [xd, xu] := by
    rw [poly.scanlineIntersections_eq]
    rcases lt_or_gt_of_ne hud with h | h
    · rw [if_pos h]
      exact filterMap_range_pair h hidnn hfu hfd hnone
    · rw [if_neg (by omega)]
      exact filterMap_range_pair h hiun hfd hfu
        (fun i hi h1 h2 => hnone i hi h2 h1)
  have hsorted : poly.sortedIntersections y = [min xu xd, max xu xd] := by
    rw [Polygon.sortedIntersections, hlist2]
    split_ifs with h
    · exact insertionSort_pair xu xd
    · rw [insertionSort_pair xd xu, min_comm xd xu, max_comm xd xu]
  have hneU : (poly.vp iu).2 ≠ (poly.vp (iu+1)).2 := by
    rw [poly.vp_snd, poly.vp_snd]
    exact ne_of_lt (lt_of_le_of_lt hup1 hup2)
  have hneD : (poly.vp idn).2 ≠ (poly.vp (idn+1)).2 := by
    rw [poly.vp_snd, poly.vp_snd]
    exact ne_of_gt (lt_of_le_of_lt hdn2 hdn1)
  have hyU : (poly.vp iu).2 - (poly.vp (iu+1)).2 < 0 := by
    rw [poly.vp_snd, poly.vp_snd]
    have hl := lt_of_le_of_lt hup1 hup2
    linarith
  have hyD : 0 < (poly.vp idn).2 - (poly.vp (idn+1)).2 := by
    rw [poly.vp_snd, poly.vp_snd]
    have hl := lt_of_le_of_lt hdn2 hdn1
    linarith
  have hhU := poly.hull_subset_halfplane σ hc iu hiun
  have hhD := poly.hull_subset_halfplane σ hc idn hidnn
  have hbU : ∀ x : ℚ, ((x, y) : ℚ × ℚ) ∈ convexHull ℚ poly.vertexSet →
      0 ≤ σ * (((poly.vp iu).2 - (poly.vp (iu+1)).2) * (x - xu)) := by
    intro x hx
    have h0 : 0 ≤ σ * orient (poly.vp iu) (poly.vp (iu+1)) ((x, y) : ℚ × ℚ) :=
      hhU hx
    rw [orient_level _ _ _ _ hneU] at h0
    rw [← hxu] at h0
    exact h0
  have hbD : ∀ x : ℚ, ((x, y) : ℚ × ℚ) ∈ convexHull ℚ poly.vertexSet →
      0 ≤ σ * (((poly.vp idn).2 - (poly.vp (idn+1)).2) * (x - xd)) := by
    intro x hx
    have h0 : 0 ≤ σ * orient (poly.vp idn) (poly.vp (idn+1)) ((x, y) : ℚ × ℚ) :=
      hhD hx
    rw [orient_level _ _ _ _ hneD] at h0
    rw [← hxd] at h0
    exact h0
  have hmemU : ((xu, y) : ℚ × ℚ) ∈ convexHull ℚ poly.vertexSet := by
    rw [hxu]
    exact poly.crossing_mem_hull iu hn y (Or.inl ⟨hup1, hup2⟩)
  have hmemD : ((xd, y) : ℚ × ℚ) ∈ convexHull ℚ poly.vertexSet := by
    rw [hxd]
    exact poly.crossing_mem_hull idn hn y (Or.inr ⟨hdn2, hdn1⟩)
  rcases hσ with rfl | rfl
  · have hxub : ∀ x : ℚ,
        ((x, y) : ℚ × ℚ) ∈ convexHull ℚ poly.vertexSet → x ≤ xu := by
      intro x hx
      have h0 := hbU x hx
      rw [one_mul] at h0
      by_contra hgt
      push_neg at hgt
      have hneg : ((poly.vp iu).2 - (poly.vp (iu+1)).2) * (x - xu) < 0 :=
        mul_neg_of_neg_of_pos hyU (by linarith)
      linarith
    have hxdb : ∀ x : ℚ,
        ((x, y) : ℚ × ℚ) ∈ convexHull ℚ poly.vertexSet → xd ≤ x := by
      intro x hx
      have h0 := hbD x hx
      rw [one_mul] at h0
      by_contra hgt
      push_neg at hgt
      have hneg : ((poly.vp idn).2 - (poly.vp (idn+1)).2) * (x - xd) < 0 :=
        mul_neg_of_pos_of_neg hyD (by linarith)
      linarith
    have hdu : xd ≤ xu := hxdb xu hmemU
    refine ⟨xd, xu, hdu, ?_, ?_, ?_⟩
    · rw [hsorted]
      rfl
    · rw [Polygon.scanlineSpans, hsorted, min_eq_right hdu, max_eq_left hdu]
      rfl
    · ext x
      simp only [Set.mem_setOf_eq, Set.mem_Icc]
      constructor
      · intro hx
        exact ⟨hxdb x hx, hxub x hx⟩
      · rintro ⟨h1, h2⟩
        exact horiz_between_mem (convex_convexHull ℚ _) hmemD hmemU h1 h2
  · have hxub : ∀ x : ℚ,
        ((x, y) : ℚ × ℚ) ∈ convexHull ℚ poly.vertexSet → xu ≤ x := by
      intro x hx
      have h0 := hbU x hx
      by_contra hgt
      push_neg at hgt
      have hpos : 0 < ((poly.vp iu).2 - (poly.vp (iu+1)).2) * (x - xu) :=
        mul_pos_of_neg_of_neg hyU (by linarith)
      linarith
    have hxdb : ∀ x : ℚ,
        ((x, y) : ℚ × ℚ) ∈ convexHull ℚ poly.vertexSet → x ≤ xd := by
      intro x hx
      have h0 := hbD x hx
      by_contra hgt
      push_neg at hgt
      have hpos : 0 < ((poly.vp idn).2 - (poly.vp (idn+1)).2) * (x - xd) :=
        mul_pos hyD (by linarith)
      linarith
    have hdu : xu ≤ xd := hxdb xu hmemU
    refine ⟨xu, xd, hdu, ?_, ?_, ?_⟩
    · rw [hsorted]
      rfl
    · rw [Polygon.scanlineSpans, hsorted, min_eq_left hdu, max_eq_right hdu]
      rfl
    · ext x
      simp only [Set.mem_setOf_eq, Set.mem_Icc]
      constructor
      · intro hx
        exact ⟨hxub x hx, hxdb x hx⟩
      · rintro ⟨h1, h2⟩
        exact horiz_between_mem (convex_convexHull ℚ _) hmemU hmemD h1 h2

/-- C7.  For a convex polygon (vertex cycle in strictly convex position,
in either orientation) and every scan line y with minY ≤ y < maxY, the
half-open edge rule yields exactly two valid intersections, fill draws
exactly one contiguous span, and that span equals the intersection of
the polygon (the convex hull of its vertices) with the row at height
y. -/
theorem convex_fill_single_span (poly : Polygon) (y : ℚ)
    (hconv : poly.ConvexPos 1 ∨ poly.ConvexPos (-1))
    (hy1 : poly.minY ≤ y) (hy2 : y < poly.maxY) :
    ∃ x1 x2 : ℚ, x1 ≤ x2 ∧
      (poly.sortedIntersections y).length = 2 ∧
      poly.scanlineSpans y = [(x1, x2)] ∧
      {x : ℚ | ((x, y) : ℚ × ℚ) ∈ convexHull ℚ poly.vertexSet} =
        Set.Icc x1 x2 := by
  rcases hconv with h | h
  · exact poly.convex_single_span_core y 1 (Or.inl rfl) h hy1 hy2
  · exact poly.convex_single_span_core y (-1) (Or.inr rfl) h hy1 hy2

/-- The counterclockwise triangle used to instantiate the convex fill
theorem. -/
def triC7 : Polygon := ⟨[⟨0, 0, 0⟩, ⟨10, 0, 0⟩, ⟨5, 10, 0⟩], [255, 0, 0, 1]⟩

theorem convex_fill_single_span_witness :
    ∃ x1 x2 : ℚ, x1 ≤ x2 ∧
      (triC7.sortedIntersections 5).length = 2 ∧
      triC7.scanlineSpans 5 = [(x1, x2)] ∧
      {x : ℚ | ((x, (5:ℚ)) : ℚ × ℚ) ∈ convexHull ℚ triC7.vertexSet} =
        Set.Icc x1 x2 := by
  refine convex_fill_single_span triC7 5 (Or.inl ?_) ?_ ?_
  · intro k hk j hj i hi
    norm_num [triC7] at hk
    obtain ⟨rfl, rfl, rfl⟩ : i = 0 ∧ j = 1 ∧ k = 2 := by omega
    norm_num [Polygon.vp, Polygon.vtx, toPair, orient, triC7, List.getD]
  · norm_num [triC7, Polygon.minY, listMin, min_def]
  · norm_num [triC7, Polygon.maxY, listMax, max_def]

end ScanConv
